import Mathlib

/-!
Verification development for the internship search / recommendation pipeline.

The pipeline (field extraction from raw job postings, multi-query
aggregation, signature-based deduplication, similarity ranking) is embedded
shallowly: Python strings become `List Char`, Python dicts with optional
keys become structures of `Option` fields, the regular expressions used by
the extractor are run by a small backtracking engine with Python `re`
semantics (leftmost match, greedy quantifiers), and the external embedding
model is an injected scoring function.
-/

namespace JobSearch

/-- Strings are modelled as lists of characters. -/
abbrev Str := List Char

/-- Python whitespace (`\s` and `str.strip` default): space, tab, newline,
carriage return, vertical tab, form feed. -/
def pyIsSpace (c : Char) : Bool :=
  c = ' ' || c = '\t' || c = '\n' || c = '\r' || c = '\x0b' || c = '\x0c'

/-- Python `str.strip()`: drop whitespace from both ends. -/
def pyStrip (s : Str) : Str :=
  ((s.dropWhile pyIsSpace).reverse.dropWhile pyIsSpace).reverse

/-- Python `str.lower()` (ASCII-adequate for the signatures involved). -/
def pyLower (s : Str) : Str := s.map Char.toLower

/-- Python `sep.join(parts)`. -/
def pyJoin (sep : Str) : List Str → Str
  | [] => []
  | [x] => x
  | x :: y :: rest => x ++ sep ++ pyJoin sep (y :: rest)

/-! ## A backtracking regular-expression engine

Mirrors Python `re` search semantics for the patterns the extractor uses:
alternation prefers the left branch, star is greedy, and `re.search` takes
the leftmost starting position that admits a match.  Matching is in
continuation-passing style so backtracking order is exactly Python's. -/

/-- Regex syntax: empty, character predicate, concatenation, alternation
(left-preferring), greedy star. -/
inductive RE where
  | eps : RE
  | pred : (Char → Bool) → RE
  | cat : RE → RE → RE
  | alt : RE → RE → RE
  | star : RE → RE

/-- Greedy star iteration: try one more copy of the body first, fall back to
the continuation.  `n` bounds the number of iterations; the bodies used here
always consume at least one character, so a bound of `|s| + 1` is exact. -/
def mstar {σ : Type} (body : Str → (Str → Option σ) → Option σ) :
    Nat → Str → (Str → Option σ) → Option σ
  | 0, s, k => k s
  | n + 1, s, k => (body s (fun s' => mstar body n s' k)).orElse (fun _ => k s)

/-- The matcher: `mmatch re s k` tries to match `re` against a prefix of `s`
and passes the remaining suffix to the continuation `k`, returning the first
success in Python's backtracking order. -/
def mmatch {σ : Type} : RE → Str → (Str → Option σ) → Option σ
  | .eps, s, k => k s
  | .pred p, s, k =>
    match s with
    | [] => none
    | c :: s' => if p c then k s' else none
  | .cat a b, s, k => mmatch a s (fun s' => mmatch b s' k)
  | .alt a b, s, k => (mmatch a s k).orElse (fun _ => mmatch b s k)
  | .star a, s, k => mstar (fun s' k' => mmatch a s' k') (s.length + 1) s k

/-- `a+` as `a · a*`. -/
def RE.plus (a : RE) : RE := .cat a (.star a)

/-- `a?`, preferring to match. -/
def RE.opt (a : RE) : RE := .alt a .eps

/-- A case-insensitive literal character (`re.IGNORECASE`). -/
def RE.ci (c : Char) : RE := .pred (fun x => x.toLower = c)

/-- A literal character. -/
def RE.chr (c : Char) : RE := .pred (fun x => x = c)

/-- A case-insensitive literal string. -/
def RE.lit (cs : Str) : RE := cs.foldr (fun c r => .cat (.ci c) r) .eps

/-- Chained alternation, first alternative preferred. -/
def RE.alts : List RE → RE
  | [] => .eps
  | [a] => a
  | a :: b :: rest => .alt a (RE.alts (b :: rest))

/-- `\s` as a regex. -/
def RE.sp : RE := .pred pyIsSpace

/-- `re.search` existence check: does the pattern match starting at some
position of `s` (positions tried left to right)? -/
def reContains (re : RE) : Str → Bool
  | [] => (mmatch re [] (fun _ => some ())).isSome
  | s@(_ :: rest) =>
    (mmatch re s (fun _ => some ())).isSome || reContains re rest

/-- Python `\d` (ASCII digits suffice for the patterns involved). -/
def pyIsDigit (c : Char) : Bool := '0' ≤ c && c ≤ '9'

/-! ## The extractor's concrete patterns -/

/-- Character class `[\d,K–-]` of the salary pattern (the dash in the middle
is an en dash), case-insensitively. -/
def salaryClassChar (c : Char) : Bool :=
  pyIsDigit c || c = ',' || c.toLower = 'k' || c = '–' || c = '-'

/-- The salary pattern
`₹[\d,K–-]+\s*(a\s+year|a\s+month|per\s+month|per\s+year)` with
`re.IGNORECASE`. -/
def salaryRE : RE :=
  .cat (RE.chr '₹') (.cat (RE.plus (.pred salaryClassChar))
    (.cat (.star RE.sp)
      (RE.alts
        [ .cat (RE.ci 'a') (.cat (RE.plus RE.sp) (RE.lit ("year".toList)))
        , .cat (RE.ci 'a') (.cat (RE.plus RE.sp) (RE.lit ("month".toList)))
        , .cat (RE.lit ("per".toList)) (.cat (RE.plus RE.sp) (RE.lit ("month".toList)))
        , .cat (RE.lit ("per".toList)) (.cat (RE.plus RE.sp) (RE.lit ("year".toList))) ])))

/-- The time-period pattern
`(full-time|part-time|internship|contract|temporary|freelance|\d+\s+months?|\d+\s+days?\s+ago)`
with `re.IGNORECASE`. -/
def timeRE : RE :=
  RE.alts
    [ RE.lit ("full-time".toList)
    , RE.lit ("part-time".toList)
    , RE.lit ("internship".toList)
    , RE.lit ("contract".toList)
    , RE.lit ("temporary".toList)
    , RE.lit ("freelance".toList)
    , .cat (RE.plus (.pred pyIsDigit))
        (.cat (RE.plus RE.sp) (.cat (RE.lit ("month".toList)) (RE.opt (RE.ci 's'))))
    , .cat (RE.plus (.pred pyIsDigit))
        (.cat (RE.plus RE.sp)
          (.cat (RE.lit ("day".toList)) (.cat (RE.opt (RE.ci 's'))
            (.cat (RE.plus RE.sp) (RE.lit ("ago".toList)))))) ]

/-- `[^,]+` of the title pattern. -/
def segRE : RE := RE.plus (.pred (fun c => !(c = ',')))

/-- `\([^)]+\)` of the title pattern. -/
def parenRE : RE :=
  .cat (RE.chr '(') (.cat (RE.plus (.pred (fun c => !(c = ')')))) (RE.chr ')'))

/-- Group 1 of the title pattern: `[^,]+(?:,\s*[^,]+)*(?:\s*\([^)]+\))?`. -/
def locRE : RE :=
  .cat segRE
    (.cat (.star (.cat (RE.chr ',') (.cat (.star RE.sp) segRE)))
      (RE.opt (.cat (.star RE.sp) parenRE)))

/-- The part of the title pattern before the capture group: `\s+in\s+` with
`re.IGNORECASE`. -/
def titlePreRE : RE :=
  .cat (RE.plus RE.sp) (.cat (RE.ci 'i') (.cat (RE.ci 'n') (RE.plus RE.sp)))

/-- Attempt the title pattern `\s+in\s+(<group>)\s*$` at the start of `t`.
The trailing `\s*$` forces the remainder after the group to be whitespace
running to the end of the string; on success, return what the capture group
matched. -/
def attemptTitle (t : Str) : Option Str :=
  mmatch titlePreRE t (fun r =>
    mmatch locRE r (fun rest =>
      if rest.all pyIsSpace then some (r.take (r.length - rest.length)) else none))

/-- `re.search` for the title pattern: try each start position left to
right, returning the start index and the capture of the first position that
matches. -/
def searchTitle : Str → Nat → Option (Nat × Str)
  | [], i =>
    match attemptTitle [] with
    | some cap => some (i, cap)
    | none => none
  | t@(_ :: rest), i =>
    match attemptTitle t with
    | some cap => some (i, cap)
    | none => searchTitle rest (i + 1)

/-- `extract_location_from_title`: if the title matches
`\s+in\s+([^,]+(?:,\s*[^,]+)*(?:\s*\([^)]+\))?)\s*$`, return the title with
the whole match removed (then stripped) and the stripped capture group;
otherwise the title unchanged and no location. -/
def extract_location_from_title (title : Str) : Str × Option Str :=
  if title = [] then (title, none)
  else
    match searchTitle title 0 with
    | some (i, cap) => (pyStrip (title.take i), some (pyStrip cap))
    | none => (title, none)

/-! ## Data model -/

/-- The structured `detected_extensions` sub-dictionary of a raw posting;
each key may be absent. -/
structure DetectedExtensions where
  salary : Option Str
  schedule_type : Option Str
  posted_at : Option Str
deriving DecidableEq, Repr

/-- The nested `hiring_company` dictionary (its `name` key may be absent). -/
structure HiringCompany where
  name : Option Str
deriving DecidableEq, Repr

/-- A raw posting: an open mapping from the provider; every field may be
absent.  Only the keys the extractor reads are modelled. -/
structure RawPosting where
  title : Option Str
  description : Option Str
  location : Option Str
  company_name : Option Str
  hiring_company : Option HiringCompany
  link : Option Str
  source : Option Str
  detected_extensions : Option DetectedExtensions
  extensions : Option (List Str)
deriving DecidableEq, Repr

/-- A blank raw posting (every field absent), convenient for building
concrete postings. -/
def RawPosting.empty : RawPosting :=
  ⟨none, none, none, none, none, none, none, none, none⟩

/-- A normalized internship record.  `job_title` and `description` are
always present; an `Option` field that is `none` models the dictionary key
being absent (sparse representation). -/
structure NormalizedInternship where
  job_title : Str
  description : Str
  location : Option Str
  company : Option Str
  source_url : Option Str
  salary : Option Str
  time_period : Option Str
deriving DecidableEq, Repr

/-! ## Field extraction -/

/-- The free-text salary scan: the first `extensions` entry matching the
salary pattern, if the list is present. -/
def scan_salary_extensions (job_data : RawPosting) : Option Str :=
  match job_data.extensions with
  | none => none
  | some exts => exts.find? (fun ext => reContains salaryRE ext)

/-- `extract_salary`: prefer the structured `detected_extensions` salary;
otherwise scan the free-text extensions. -/
def extract_salary (job_data : RawPosting) : Option Str :=
  match job_data.detected_extensions with
  | some de =>
    match de.salary with
    | some s => some s
    | none => scan_salary_extensions job_data
  | none => scan_salary_extensions job_data

/-- `extract_time_period`: collect schedule type, a `Posted <when>` entry,
and matching free-text extensions not already collected; join with `, `. -/
def extract_time_period (job_data : RawPosting) : Option Str :=
  let fromDetected : List Str :=
    match job_data.detected_extensions with
    | some de =>
      (match de.schedule_type with
       | some s => [s]
       | none => []) ++
      (match de.posted_at with
       | some p => [("Posted ".toList) ++ p]
       | none => [])
    | none => []
  let indicators : List Str :=
    match job_data.extensions with
    | some exts =>
      exts.foldl
        (fun acc ext =>
          if reContains timeRE ext && !(acc.contains ext) then acc ++ [ext] else acc)
        fromDetected
    | none => fromDetected
  if indicators = [] then none else some (pyJoin (", ".toList) indicators)

/-- `clean_description`: strip, then collapse each whitespace run to a
single space (`re.sub(r'\s+', ' ', description.strip())`; empty input stays
empty). -/
def collapseSpaces : Str → Str
  | [] => []
  | [c] => if pyIsSpace c then [' '] else [c]
  | c1 :: c2 :: rest =>
    if pyIsSpace c1 && pyIsSpace c2 then collapseSpaces (c2 :: rest)
    else (if pyIsSpace c1 then ' ' else c1) :: collapseSpaces (c2 :: rest)

/-- `clean_description` of the source. -/
def clean_description (description : Str) : Str := collapseSpaces (pyStrip description)

/-- Python `a or b` on optional strings: `b` when `a` is absent or empty. -/
def pyOrStr (a b : Option Str) : Option Str :=
  match a with
  | some s => if s = [] then b else some s
  | none => b

/-- Python `if x:` guard used before storing an optional field: an absent or
empty value is omitted. -/
def keepTruthy (a : Option Str) : Option Str :=
  match a with
  | some s => if s = [] then none else some s
  | none => none

/-- `transform_job_to_internship`: build the normalized record from a raw
posting, with the title-embedded location taking precedence (Python `or`)
over the explicit location field, and each optional field stored only when
truthy. -/
def transform_job_to_internship (job_data : RawPosting) : NormalizedInternship :=
  let original_title := job_data.title.getD ("Unknown Position".toList)
  let p := extract_location_from_title original_title
  let location := pyOrStr p.2 job_data.location
  let company : Option Str :=
    match job_data.company_name with
    | some c => some c
    | none =>
      match job_data.hiring_company with
      | some hc => hc.name
      | none => none
  let source_url := pyOrStr job_data.link job_data.source
  { job_title := p.1
  , description := clean_description (job_data.description.getD [])
  , location := keepTruthy location
  , company := keepTruthy company
  , source_url := keepTruthy source_url
  , salary := keepTruthy (extract_salary job_data)
  , time_period := keepTruthy (extract_time_period job_data) }

/-! ## Deduplication -/

/-- The dedup signature: lower-cased `job_title|company|location`, with the
empty string for a missing component. -/
def signature (internship : NormalizedInternship) : Str :=
  pyLower internship.job_title ++ '|' ::
    (pyLower (internship.company.getD []) ++ '|' ::
      pyLower (internship.location.getD []))

/-- The dedup loop of `generate_jobs`: walk the list keeping the set of
signatures already seen; a record whose signature was seen is dropped. -/
def dedupeAux : List NormalizedInternship → List Str → List NormalizedInternship
  | [], _ => []
  | x :: xs, seen =>
    if signature x ∈ seen then dedupeAux xs seen
    else x :: dedupeAux xs (signature x :: seen)

/-- Signature-based deduplication, first occurrence wins. -/
def dedupe (records : List NormalizedInternship) : List NormalizedInternship :=
  dedupeAux records []

/-! ## Multi-query aggregation

The fetch and the per-posting normalization are injected fallible
functions (`none` models the exception the source catches): a fetch
failure makes the whole query contribute nothing, a normalization failure
drops only that posting. -/

/-- The inner loop of `generate_jobs` over one query's postings: a posting
whose normalization fails is dropped, the rest proceed. -/
def processPostings (extract : RawPosting → Option NormalizedInternship)
    (jobs : List RawPosting) : List NormalizedInternship :=
  jobs.filterMap extract

/-- One query's contribution: nothing when the fetch fails, otherwise the
normalized postings. -/
def processQuery (extract : RawPosting → Option NormalizedInternship)
    (fetched : Option (List RawPosting)) : List NormalizedInternship :=
  match fetched with
  | none => []
  | some jobs => processPostings extract jobs

/-- The aggregation loop of `generate_jobs`: run the queries in order and
concatenate their contributions. -/
def aggregate (extract : RawPosting → Option NormalizedInternship)
    (fetch : Str → Option (List RawPosting)) (queries : List Str) :
    List NormalizedInternship :=
  (queries.map (fun q => processQuery extract (fetch q))).flatten

/-- The query strings `generate_jobs` constructs: skills-based (when skills
are given), degree-based (when a degree is given), and the main
title-based query. -/
def build_search_queries (title : Str) (skills : List Str) (degree : Option Str)
    (location : Str) : List Str :=
  (if skills ≠ [] then [pyJoin ([' ']) skills ++ (" internship in ".toList) ++ location] else []) ++
  (match degree with
   | some d => [d ++ (" internship in ".toList) ++ location]
   | none => []) ++
  [title ++ (" internship in ".toList) ++ location]

/-! ## Similarity ranking

The embedding model and the cosine similarity against the user profile are
an external capability; they are injected as one scoring function
`score : description → ℚ`.  Python's `sorted(..., reverse=True)` is a
stable descending sort; it is embedded as an insertion sort that puts a row
before the first row of strictly smaller score, which is extensionally the
unique stable descending order. -/

/-- One row of the ranking DataFrame. -/
structure Row where
  job_title : Str
  company : Str
  location : Str
  similarity : ℚ
  description : Str
deriving DecidableEq, Repr

/-- Insert `x` (coming earlier in the input than everything in the list)
into a descending-sorted list, after strictly greater scores and before
equal or smaller ones. -/
def insertDesc {α : Type} (key : α → ℚ) (x : α) : List α → List α
  | [] => [x]
  | y :: ys => if key x < key y then y :: insertDesc key x ys else x :: y :: ys

/-- Stable descending sort by `key` (Python
`sorted(l, key=key, reverse=True)`). -/
def sortDesc {α : Type} (key : α → ℚ) : List α → List α
  | [] => []
  | x :: xs => insertDesc key x (sortDesc key xs)

/-- Pandas `DataFrame.head(n)`: the first `n` rows when `n ≥ 0`, and all
rows but the last `|n|` when `n < 0`. -/
def pandasHead {α : Type} (n : Int) (l : List α) : List α :=
  if 0 ≤ n then l.take n.toNat else l.take (l.length - (-n).toNat)

/-- A JSON value of the ranking artifact: a string or a number. -/
inductive JVal where
  | s : Str → JVal
  | q : ℚ → JVal
deriving DecidableEq, Repr

/-- One record of `recommendations.json`, after the column rename: keys in
DataFrame column order. -/
def rowToJson (r : Row) : List (Str × JVal) :=
  [ (("Job Title".toList), JVal.s r.job_title)
  , (("Company".toList), JVal.s r.company)
  , (("Location".toList), JVal.s r.location)
  , (("Similarity Score".toList), JVal.q r.similarity)
  , (("description".toList), JVal.s r.description) ]

/-- The document written to `recommendations.json`, together with the rows
of the returned DataFrame. -/
structure RecOutput where
  recommendations : List (List (Str × JVal))
  total_found : Nat
  dfRows : List Row
deriving DecidableEq, Repr

/-- The row built for one internship record (description defaulted to empty
before scoring, title/company/location defaulted to empty strings). -/
def mkRow (score : Str → ℚ) (intern : NormalizedInternship) : Row :=
  { job_title := intern.job_title
  , company := intern.company.getD []
  , location := intern.location.getD []
  , similarity := score intern.description
  , description := intern.description }

/-- The similarity key the sort uses. -/
def simKey (r : Row) : ℚ := r.similarity

/-- `generate_recommendations`: score every record, sort descending by
similarity (stable), truncate with pandas `head(top_k)` for the artifact,
and report `total_found` as the full DataFrame length. -/
def generate_recommendations (score : Str → ℚ)
    (internships : List NormalizedInternship) (top_k : Int) : RecOutput :=
  let results := internships.map (mkRow score)
  let sorted := sortDesc simKey results
  { recommendations := (pandasHead top_k sorted).map rowToJson
  , total_found := sorted.length
  , dfRows := sorted }

/-! ## Lemmas about deduplication -/

/-- The records surviving `dedupeAux` have pairwise-distinct signatures,
none of which was in the seen set. -/
theorem dedupeAux_sig_nodup_not_seen :
    ∀ (l : List NormalizedInternship) (seen : List Str),
      ((dedupeAux l seen).map signature).Nodup ∧
        ∀ s ∈ (dedupeAux l seen).map signature, s ∉ seen := by
  intro l
  induction l with
  | nil => intro seen; simp [dedupeAux]
  | cons x xs ih =>
    intro seen
    by_cases hx : signature x ∈ seen
    · simpa [dedupeAux, hx] using ih seen
    · have ih' := ih (signature x :: seen)
      refine ⟨?_, ?_⟩
      · simp only [dedupeAux, if_neg hx, List.map_cons, List.nodup_cons]
        refine ⟨fun hmem => ?_, ih'.1⟩
        exact (ih'.2 _ hmem) (List.mem_cons_self _ _)
      · intro s hs
        simp only [dedupeAux, if_neg hx, List.map_cons, List.mem_cons] at hs
        rcases hs with rfl | hs
        · exact hx
        · intro hseen
          exact (ih'.2 _ hs) (List.mem_cons_of_mem _ hseen)

/-- On a list whose signatures are pairwise distinct and disjoint from the
seen set, `dedupeAux` is the identity. -/
theorem dedupeAux_eq_self :
    ∀ (l : List NormalizedInternship) (seen : List Str),
      (l.map signature).Nodup → (∀ x ∈ l, signature x ∉ seen) →
        dedupeAux l seen = l := by
  intro l
  induction l with
  | nil => intro seen _ _; rfl
  | cons x xs ih =>
    intro seen hnodup hdisj
    have hx : signature x ∉ seen := hdisj x (List.mem_cons_self _ _)
    simp only [List.map_cons, List.nodup_cons] at hnodup
    simp only [dedupeAux, if_neg hx]
    congr 1
    refine ih (signature x :: seen) hnodup.2 ?_
    intro y hy
    simp only [List.mem_cons]
    rintro (heq | hseen)
    · exact hnodup.1 (heq ▸ List.mem_map_of_mem signature hy)
    · exact hdisj y (List.mem_cons_of_mem _ hy) hseen

/-- C1: `dedupe` is idempotent, and on a list whose records have
pairwise-distinct signatures it returns the list unchanged and in the same
order. -/
theorem dedupe_idempotent_and_identity (L : List NormalizedInternship) :
    dedupe (dedupe L) = dedupe L ∧
      ((L.map signature).Nodup → dedupe L = L) := by
  constructor
  · exact dedupeAux_eq_self (dedupe L) []
      (dedupeAux_sig_nodup_not_seen L []).1 (by simp)
  · intro hnodup
    exact dedupeAux_eq_self L [] hnodup (by simp)

/-- A concrete duplicate-free two-record list for the witness. -/
def recA : NormalizedInternship :=
  ⟨("Data Intern".toList), [], some ("Pune".toList), some ("Acme".toList), none, none, none⟩

/-- A second concrete record with a different signature. -/
def recB : NormalizedInternship :=
  ⟨("ML Intern".toList), [], some ("Delhi".toList), some ("Acme".toList), none, none, none⟩

/-- Witness for C1 at a concrete duplicate-free list. -/
theorem dedupe_idempotent_and_identity_witness :
    (([recA, recB].map signature).Nodup) ∧ dedupe [recA, recB] = [recA, recB] :=
  ⟨by decide, (dedupe_idempotent_and_identity [recA, recB]).2 (by decide)⟩

/-- C6: the signature is the lower-cased `job_title|company|location` with
the empty string for missing components, and two records equal up to letter
case in those three fields collapse to the first one. -/
theorem signature_lowercase_collapse :
    (∀ r : NormalizedInternship,
        signature r =
          pyLower r.job_title ++ '|' ::
            (pyLower (r.company.getD []) ++ '|' :: pyLower (r.location.getD []))) ∧
      ∀ r1 r2 : NormalizedInternship,
        pyLower r1.job_title = pyLower r2.job_title →
        r1.company.map pyLower = r2.company.map pyLower →
        r1.location.map pyLower = r2.location.map pyLower →
        dedupe [r1, r2] = [r1] := by
  constructor
  · intro r; rfl
  · intro r1 r2 ht hc hl
    have hcomp : pyLower (r1.company.getD []) = pyLower (r2.company.getD []) := by
      cases h1 : r1.company <;> cases h2 : r2.company <;> simp_all [pyLower]
    have hloc : pyLower (r1.location.getD []) = pyLower (r2.location.getD []) := by
      cases h1 : r1.location <;> cases h2 : r2.location <;> simp_all [pyLower]
    have hsig : signature r2 = signature r1 := by
      simp [signature, ht, hcomp, hloc]
    simp [dedupe, dedupeAux, hsig]

/-- A record differing from `recA` only in letter case. -/
def recAUpper : NormalizedInternship :=
  ⟨("DATA INTERN".toList), ("other desc".toList), some ("PUNE".toList),
    some ("ACME".toList), none, none, none⟩

/-- Witness for C6: the case-variant record collapses onto the first. -/
theorem signature_lowercase_collapse_witness :
    dedupe [recA, recAUpper] = [recA] :=
  signature_lowercase_collapse.2 recA recAUpper (by decide) (by decide) (by decide)

/-! ## Lemmas about the extractor -/

/-- A pattern starting with a single-character predicate can only match at a
position whose first character satisfies the predicate. -/
theorem mmatch_cat_pred_isSome {σ : Type} (p : Char → Bool) (r : RE) (t : Str)
    (k : Str → Option σ) (h : (mmatch (.cat (.pred p) r) t k).isSome) :
    ∃ c t', t = c :: t' ∧ p c = true := by
  cases t with
  | nil => simp [mmatch] at h
  | cons c t' =>
    by_cases hp : p c
    · exact ⟨c, t', rfl, hp⟩
    · simp [mmatch, hp] at h

/-- The salary pattern can only match a string containing the rupee sign. -/
theorem reContains_salary_rupee :
    ∀ s : Str, reContains salaryRE s = true → '₹' ∈ s := by
  intro s
  induction s with
  | nil =>
    intro h
    simp [reContains, salaryRE, RE.chr, mmatch] at h
  | cons c rest ih =>
    intro h
    simp only [reContains, Bool.or_eq_true] at h
    rcases h with h | h
    · unfold salaryRE RE.chr at h
      obtain ⟨c', t', heq, hp⟩ := mmatch_cat_pred_isSome _ _ _ _ h
      have hc : c = c' := by cases heq; rfl
      have : c' = '₹' := of_decide_eq_true hp
      simp [hc, this]
    · exact List.mem_cons_of_mem _ (ih h)

/-- C4: the structured `detected_extensions` salary is returned verbatim
whenever it is present (no condition on the free-text extensions), and when
it is absent `extract_salary` is exactly the free-text scan returning the
first matching entry. -/
theorem salary_structured_precedence :
    (∀ (j : RawPosting) (de : DetectedExtensions) (s : Str),
        j.detected_extensions = some de → de.salary = some s →
        extract_salary j = some s) ∧
      ∀ j : RawPosting,
        (∀ de, j.detected_extensions = some de → de.salary = none) →
        extract_salary j = scan_salary_extensions j := by
  constructor
  · intro j de s hde hs
    simp [extract_salary, hde, hs]
  · intro j habs
    cases hde : j.detected_extensions with
    | none => simp [extract_salary, hde]
    | some de =>
      have := habs de hde
      simp [extract_salary, hde, this]

/-- A posting whose structured salary and free-text extensions both carry
salary information. -/
def postingStructuredSalary : RawPosting :=
  { RawPosting.empty with
      detected_extensions := some ⟨some ("₹10,000 a month".toList), none, none⟩
      extensions := some [("₹99 a month".toList)] }

/-- A posting with extensions but no structured salary. -/
def postingFreeTextSalary : RawPosting :=
  { RawPosting.empty with
      extensions := some [("Intern".toList), ("₹15,000 a month".toList)] }

/-- Witness for C4: the structured value wins over a matching free-text
entry, and without it the scan is used. -/
theorem salary_structured_precedence_witness :
    extract_salary postingStructuredSalary = some ("₹10,000 a month".toList) ∧
      extract_salary postingFreeTextSalary = scan_salary_extensions postingFreeTextSalary :=
  ⟨salary_structured_precedence.1 postingStructuredSalary _ _ rfl rfl,
    salary_structured_precedence.2 postingFreeTextSalary (by simp [postingFreeTextSalary, RawPosting.empty])⟩

/-- C7: extraction is a total function on raw postings (it never raises by
construction); a missing title yields the placeholder, and an absent
optional source field yields an absent output field — in particular no
structured salary and no extensions list give a record with no salary at
all. -/
theorem extraction_total_sparse (j : RawPosting) :
    (j.title = none →
      (transform_job_to_internship j).job_title = ("Unknown Position".toList)) ∧
    ((∀ de, j.detected_extensions = some de → de.salary = none) →
      j.extensions = none → (transform_job_to_internship j).salary = none) ∧
    (j.title = none → j.location = none →
      (transform_job_to_internship j).location = none) ∧
    (j.company_name = none → j.hiring_company = none →
      (transform_job_to_internship j).company = none) ∧
    (j.link = none → j.source = none →
      (transform_job_to_internship j).source_url = none) ∧
    (j.detected_extensions = none → j.extensions = none →
      (transform_job_to_internship j).time_period = none) := by
  refine ⟨?_, ?_, ?_, ?_, ?_, ?_⟩
  · intro ht
    simp [transform_job_to_internship, ht]
    decide
  · intro hde hext
    have hsal : extract_salary j = none := by
      cases h : j.detected_extensions with
      | none => simp [extract_salary, scan_salary_extensions, h, hext]
      | some de => simp [extract_salary, scan_salary_extensions, h, hde de h, hext]
    simp [transform_job_to_internship, hsal, keepTruthy]
  · intro ht hl
    simp [transform_job_to_internship, ht, hl, pyOrStr, keepTruthy]
    decide
  · intro hc hh
    simp [transform_job_to_internship, hc, hh, keepTruthy]
  · intro hl hs
    simp [transform_job_to_internship, hl, hs, pyOrStr, keepTruthy]
  · intro hde hext
    have htp : extract_time_period j = none := by
      simp [extract_time_period, hde, hext]
    simp [transform_job_to_internship, htp, keepTruthy]

/-- Witness for C7 at the fully sparse posting. -/
theorem extraction_total_sparse_witness :
    (transform_job_to_internship RawPosting.empty).job_title = ("Unknown Position".toList) ∧
      (transform_job_to_internship RawPosting.empty).salary = none ∧
      (transform_job_to_internship RawPosting.empty).location = none ∧
      (transform_job_to_internship RawPosting.empty).company = none ∧
      (transform_job_to_internship RawPosting.empty).source_url = none ∧
      (transform_job_to_internship RawPosting.empty).time_period = none :=
  ⟨(extraction_total_sparse RawPosting.empty).1 rfl,
    (extraction_total_sparse RawPosting.empty).2.1 (by simp [RawPosting.empty]) rfl,
    (extraction_total_sparse RawPosting.empty).2.2.1 rfl rfl,
    (extraction_total_sparse RawPosting.empty).2.2.2.1 rfl rfl,
    (extraction_total_sparse RawPosting.empty).2.2.2.2.1 rfl rfl,
    (extraction_total_sparse RawPosting.empty).2.2.2.2.2 rfl rfl⟩

/-- A posting whose only salary-like extension uses a dollar marker. -/
def postingDollarSalary : RawPosting :=
  { RawPosting.empty with extensions := some [("$80,000 a year".toList)] }

/-- C10: without a structured salary, extensions entries without the rupee
sign never yield a salary; in particular the `$80,000 a year` posting has no
salary in its normalized record. -/
theorem salary_fallback_rupee_only :
    (∀ j : RawPosting,
        (∀ de, j.detected_extensions = some de → de.salary = none) →
        (∀ ext ∈ j.extensions.getD [], ¬ '₹' ∈ ext) →
        extract_salary j = none) ∧
      (transform_job_to_internship postingDollarSalary).salary = none := by
  constructor
  · intro j hde hext
    have hscan : scan_salary_extensions j = none := by
      cases h : j.extensions with
      | none => simp [scan_salary_extensions, h]
      | some exts =>
        simp only [scan_salary_extensions, h]
        rw [List.find?_eq_none]
        intro x hx hmatch
        exact hext x (by simp [h, hx]) (reContains_salary_rupee x hmatch)
    cases h : j.detected_extensions with
    | none => simp [extract_salary, h, hscan]
    | some de => simp [extract_salary, h, hde de h, hscan]
  · decide

/-- Witness for C10: the general part applied to the dollar posting. -/
theorem salary_fallback_rupee_only_witness :
    extract_salary postingDollarSalary = none :=
  salary_fallback_rupee_only.1 postingDollarSalary
    (by simp [postingDollarSalary, RawPosting.empty]) (by decide)

/-- C5: the `Engineer in Pune, India (Remote)` title splits into title
`Engineer` and location `Pune, India (Remote)`; whenever the title pattern
matches with a nonempty location, that location overrides any explicit
location field; when it does not match, the title is kept verbatim and the
explicit location field is used (subject to the truthiness guard the code
applies to every optional field). -/
theorem title_location_split :
    (extract_location_from_title ("Engineer in Pune, India (Remote)".toList) =
        (("Engineer".toList), some ("Pune, India (Remote)".toList))) ∧
      (∀ (j : RawPosting) (t l : Str),
        extract_location_from_title (j.title.getD ("Unknown Position".toList)) =
          (t, some l) → l ≠ [] →
        (transform_job_to_internship j).job_title = t ∧
          (transform_job_to_internship j).location = some l) ∧
      ∀ (j : RawPosting) (t : Str),
        extract_location_from_title (j.title.getD ("Unknown Position".toList)) =
          (t, none) →
        (transform_job_to_internship j).job_title = t ∧
          (transform_job_to_internship j).location = keepTruthy j.location := by
  refine ⟨by decide, ?_, ?_⟩
  · intro j t l hp hl
    simp only [String.toList] at hp
    constructor
    · simp [transform_job_to_internship, hp]
    · simp [transform_job_to_internship, hp, pyOrStr, keepTruthy, hl]
  · intro j t hp
    simp only [String.toList] at hp
    constructor
    · simp [transform_job_to_internship, hp]
    · simp [transform_job_to_internship, hp, pyOrStr]

/-- A posting whose title embeds a location and which also carries an
explicit (different) location field. -/
def postingTitleLocation : RawPosting :=
  { RawPosting.empty with
      title := some ("Engineer in Pune, India (Remote)".toList)
      location := some ("Bangalore".toList) }

/-- A posting whose title has no embedded location. -/
def postingPlainTitle : RawPosting :=
  { RawPosting.empty with
      title := some ("Data Intern".toList)
      location := some ("Mumbai".toList) }

/-- Witness for C5: embedded location wins over the explicit field; a plain
title keeps the explicit field. -/
theorem title_location_split_witness :
    ((transform_job_to_internship postingTitleLocation).job_title = ("Engineer".toList) ∧
      (transform_job_to_internship postingTitleLocation).location =
        some ("Pune, India (Remote)".toList)) ∧
      (transform_job_to_internship postingPlainTitle).job_title = ("Data Intern".toList) ∧
        (transform_job_to_internship postingPlainTitle).location =
          keepTruthy postingPlainTitle.location :=
  ⟨title_location_split.2.1 postingTitleLocation _ _ (by decide) (by decide),
    title_location_split.2.2 postingPlainTitle _ (by decide)⟩

/-! ## Lemmas about aggregation -/

/-- C8: per-query failure isolation.  The aggregate is the concatenation of
the per-query normalized lists in query order; a query whose fetch fails
contributes nothing and does not disturb the other queries; a posting whose
normalization fails is dropped while the rest of its batch proceeds. -/
theorem aggregate_failure_isolation :
    (∀ (extract : RawPosting → Option NormalizedInternship)
        (fetch : Str → Option (List RawPosting)) (queries : List Str),
        aggregate extract fetch queries =
          (queries.map (fun q => processQuery extract (fetch q))).flatten) ∧
      (∀ (extract : RawPosting → Option NormalizedInternship)
          (fetch : Str → Option (List RawPosting))
          (qs1 : List Str) (q : Str) (qs2 : List Str),
          fetch q = none →
          aggregate extract fetch (qs1 ++ q :: qs2) =
            aggregate extract fetch qs1 ++ aggregate extract fetch qs2) ∧
      ∀ (extract : RawPosting → Option NormalizedInternship)
        (jobs1 : List RawPosting) (bad : RawPosting) (jobs2 : List RawPosting),
        extract bad = none →
        processPostings extract (jobs1 ++ bad :: jobs2) =
          processPostings extract jobs1 ++ processPostings extract jobs2 := by
  refine ⟨fun _ _ _ => rfl, ?_, ?_⟩
  · intro extract fetch qs1 q qs2 hq
    simp [aggregate, processQuery, hq]
  · intro extract jobs1 bad jobs2 hbad
    simp [processPostings, hbad]

/-- A concrete fetch for the C8 witness: the second query fails, the others
return one posting each. -/
def fetchW (q : Str) : Option (List RawPosting) :=
  if q = ("bad".toList) then none
  else some [{ RawPosting.empty with title := some q }]

/-- Witness for C8: a failing middle query contributes nothing, and a
failing posting is dropped from its batch. -/
theorem aggregate_failure_isolation_witness :
    aggregate (fun p => some (transform_job_to_internship p)) fetchW
          [("a".toList), ("bad".toList), ("b".toList)] =
        aggregate (fun p => some (transform_job_to_internship p)) fetchW [("a".toList)] ++
          aggregate (fun p => some (transform_job_to_internship p)) fetchW [("b".toList)] ∧
      processPostings (fun p => if p = RawPosting.empty then none else some (transform_job_to_internship p))
          ([postingPlainTitle] ++ RawPosting.empty :: [postingTitleLocation]) =
        processPostings (fun p => if p = RawPosting.empty then none else some (transform_job_to_internship p)) [postingPlainTitle] ++
          processPostings (fun p => if p = RawPosting.empty then none else some (transform_job_to_internship p)) [postingTitleLocation] :=
  ⟨aggregate_failure_isolation.2.1 (fun p => some (transform_job_to_internship p)) fetchW
      [("a".toList)] ("bad".toList) [("b".toList)] (by decide),
    aggregate_failure_isolation.2.2 _ [postingPlainTitle] RawPosting.empty [postingTitleLocation] (by simp)⟩

/-! ## Lemmas about the stable descending sort -/

/-- Inserting adds one element. -/
theorem length_insertDesc {α : Type} (key : α → ℚ) (x : α) :
    ∀ l : List α, (insertDesc key x l).length = l.length + 1
  | [] => rfl
  | y :: ys => by
    by_cases h : key x < key y
    · simp [insertDesc, h, length_insertDesc key x ys]
    · simp [insertDesc, h]

/-- Sorting preserves length. -/
theorem length_sortDesc {α : Type} (key : α → ℚ) :
    ∀ l : List α, (sortDesc key l).length = l.length
  | [] => rfl
  | x :: xs => by
    simp [sortDesc, length_insertDesc, length_sortDesc key xs]

/-- Membership after insertion. -/
theorem mem_insertDesc {α : Type} (key : α → ℚ) (x : α) :
    ∀ (l : List α) (y : α), y ∈ insertDesc key x l → y = x ∨ y ∈ l
  | [], y, h => by simpa [insertDesc] using h
  | z :: zs, y, h => by
    by_cases hc : key x < key z
    · simp only [insertDesc, if_pos hc, List.mem_cons] at h
      rcases h with rfl | h
      · exact Or.inr (List.mem_cons_self _ _)
      · rcases mem_insertDesc key x zs y h with rfl | h'
        · exact Or.inl rfl
        · exact Or.inr (List.mem_cons_of_mem _ h')
    · simp only [insertDesc, if_neg hc, List.mem_cons] at h
      rcases h with rfl | h
      · exact Or.inl rfl
      · exact Or.inr (List.mem_cons.mpr h)

/-- Membership after sorting. -/
theorem mem_sortDesc {α : Type} (key : α → ℚ) :
    ∀ (l : List α) (y : α), y ∈ sortDesc key l → y ∈ l
  | [], _, h => h
  | x :: xs, y, h => by
    rcases mem_insertDesc key x _ y h with rfl | h'
    · exact List.mem_cons_self _ _
    · exact List.mem_cons_of_mem _ (mem_sortDesc key xs y h')

/-- Insertion keeps the list sorted by non-increasing key. -/
theorem pairwise_le_insertDesc {α : Type} (key : α → ℚ) (x : α) :
    ∀ l : List α, l.Pairwise (fun a b => key b ≤ key a) →
      (insertDesc key x l).Pairwise (fun a b => key b ≤ key a)
  | [], _ => by simp [insertDesc]
  | y :: ys, h => by
    rw [List.pairwise_cons] at h
    by_cases hxy : key x < key y
    · simp only [insertDesc, if_pos hxy]
      rw [List.pairwise_cons]
      refine ⟨fun z hz => ?_, pairwise_le_insertDesc key x ys h.2⟩
      rcases mem_insertDesc key x ys z hz with rfl | hz'
      · exact le_of_lt hxy
      · exact h.1 z hz'
    · simp only [insertDesc, if_neg hxy]
      rw [List.pairwise_cons]
      refine ⟨fun z hz => ?_, List.pairwise_cons.mpr h⟩
      rcases List.mem_cons.mp hz with rfl | hz'
      · exact not_lt.mp hxy
      · exact le_trans (h.1 z hz') (not_lt.mp hxy)

/-- The output of the sort is sorted by non-increasing key. -/
theorem pairwise_le_sortDesc {α : Type} (key : α → ℚ) :
    ∀ l : List α, (sortDesc key l).Pairwise (fun a b => key b ≤ key a)
  | [] => by simp [sortDesc]
  | x :: xs => pairwise_le_insertDesc key x _ (pairwise_le_sortDesc key xs)

/-- The order that characterizes a stable descending sort on index-annotated
elements: strictly greater key first, ties by original position. -/
def stableRel {β : Type} (key : β → ℚ) (a b : Nat × β) : Prop :=
  key b.2 < key a.2 ∨ (key a.2 = key b.2 ∧ a.1 < b.1)

/-- Inserting an element whose original position is before everything in the
list preserves the stable order. -/
theorem pairwise_stable_insertDesc {β : Type} (key : β → ℚ) (x : Nat × β) :
    ∀ l : List (Nat × β), l.Pairwise (stableRel key) → (∀ y ∈ l, x.1 < y.1) →
      (insertDesc (fun p => key p.2) x l).Pairwise (stableRel key)
  | [], _, _ => by simp [insertDesc]
  | y :: ys, h, hlt => by
    rw [List.pairwise_cons] at h
    by_cases hxy : key x.2 < key y.2
    · simp only [insertDesc, if_pos hxy]
      rw [List.pairwise_cons]
      refine ⟨fun z hz => ?_,
        pairwise_stable_insertDesc key x ys h.2
          (fun y' hy' => hlt y' (List.mem_cons_of_mem _ hy'))⟩
      rcases mem_insertDesc _ x ys z hz with rfl | hz'
      · exact Or.inl hxy
      · exact h.1 z hz'
    · simp only [insertDesc, if_neg hxy]
      rw [List.pairwise_cons]
      refine ⟨fun z hz => ?_, List.pairwise_cons.mpr h⟩
      rcases List.mem_cons.mp hz with rfl | hz'
      · rcases lt_or_eq_of_le (not_lt.mp hxy) with hlt' | heq
        · exact Or.inl hlt'
        · exact Or.inr ⟨heq.symm, hlt z (List.mem_cons_self _ _)⟩
      · rcases h.1 z hz' with hzy | ⟨heq, _⟩
        · exact Or.inl (lt_of_lt_of_le hzy (not_lt.mp hxy))
        · rcases lt_or_eq_of_le (le_trans (le_of_eq heq.symm) (not_lt.mp hxy)) with h1 | h1
          · exact Or.inl h1
          · exact Or.inr ⟨h1.symm, hlt z (List.mem_cons_of_mem _ hz')⟩

/-- Sorting a list whose original positions are strictly increasing yields
the stable descending order. -/
theorem pairwise_stable_sortDesc {β : Type} (key : β → ℚ) :
    ∀ l : List (Nat × β), l.Pairwise (fun a b => a.1 < b.1) →
      (sortDesc (fun p => key p.2) l).Pairwise (stableRel key)
  | [], _ => by simp [sortDesc]
  | x :: xs, h => by
    rw [List.pairwise_cons] at h
    refine pairwise_stable_insertDesc key x _
      (pairwise_stable_sortDesc key xs h.2) (fun y hy => ?_)
    exact h.1 y (mem_sortDesc _ xs y hy)

/-- Dropping the index annotations commutes with insertion. -/
theorem map_snd_insertDesc {β : Type} (key : β → ℚ) (x : Nat × β) :
    ∀ l : List (Nat × β),
      (insertDesc (fun p => key p.2) x l).map Prod.snd =
        insertDesc key x.2 (l.map Prod.snd)
  | [] => rfl
  | y :: ys => by
    by_cases h : key x.2 < key y.2
    · simp [insertDesc, h, map_snd_insertDesc key x ys]
    · simp [insertDesc, h]

/-- Dropping the index annotations commutes with the sort. -/
theorem map_snd_sortDesc {β : Type} (key : β → ℚ) :
    ∀ l : List (Nat × β),
      (sortDesc (fun p => key p.2) l).map Prod.snd = sortDesc key (l.map Prod.snd)
  | [] => rfl
  | x :: xs => by
    simp [sortDesc, map_snd_insertDesc, map_snd_sortDesc key xs]

/-- Every index in `enumFrom n l` is at least `n`. -/
theorem le_fst_of_mem_enumFrom {β : Type} :
    ∀ (l : List β) (n : Nat) (y : Nat × β), y ∈ l.enumFrom n → n ≤ y.1
  | [], n, y, h => by simp [List.enumFrom] at h
  | x :: xs, n, y, h => by
    simp only [List.enumFrom, List.mem_cons] at h
    rcases h with rfl | h
    · exact le_refl n
    · exact le_trans (Nat.le_succ n) (le_fst_of_mem_enumFrom xs (n + 1) y h)

/-- The indices of `enumFrom` are strictly increasing. -/
theorem pairwise_fst_lt_enumFrom {β : Type} :
    ∀ (l : List β) (n : Nat), (l.enumFrom n).Pairwise (fun a b => a.1 < b.1)
  | [], _ => by simp [List.enumFrom]
  | x :: xs, n => by
    simp only [List.enumFrom]
    rw [List.pairwise_cons]
    exact
      ⟨fun y hy => lt_of_lt_of_le (Nat.lt_succ_self n) (le_fst_of_mem_enumFrom xs (n + 1) y hy),
        pairwise_fst_lt_enumFrom xs (n + 1)⟩

/-- The indices of `enum` are strictly increasing. -/
theorem pairwise_fst_lt_enum {β : Type} (l : List β) :
    l.enum.Pairwise (fun a b => a.1 < b.1) :=
  pairwise_fst_lt_enumFrom l 0

/-- C2: the ranking output is sorted by non-increasing similarity, it equals
the index-annotated stable sort with the annotations dropped, and that
annotated sort orders equal similarities by original input position. -/
theorem rank_sorted_stable (score : Str → ℚ)
    (internships : List NormalizedInternship) (top_k : Int) :
    ((generate_recommendations score internships top_k).dfRows).Pairwise
        (fun a b => simKey b ≤ simKey a) ∧
      (generate_recommendations score internships top_k).dfRows =
        (sortDesc (fun p => simKey p.2)
            ((internships.map (mkRow score)).enum)).map Prod.snd ∧
      (sortDesc (fun p => simKey p.2)
          ((internships.map (mkRow score)).enum)).Pairwise (stableRel simKey) := by
  refine ⟨?_, ?_, ?_⟩
  · simpa [generate_recommendations] using
      pairwise_le_sortDesc simKey (internships.map (mkRow score))
  · rw [map_snd_sortDesc, List.enum_map_snd]
    rfl
  · exact pairwise_stable_sortDesc simKey _ (pairwise_fst_lt_enum _)

/-- A constant scoring function for concrete ranking computations. -/
def score0 : Str → ℚ := fun _ => 0

/-- Counterexample for C3: with two records and `top_k = -1` the written
recommendations array has one entry, not zero — pandas `head(-1)` keeps all
rows but the last, so `top_k ≤ 0` does not yield an empty result and the
length is not `min(top_k, n)`. -/
theorem rank_topk_nonpositive_counterexample :
    (generate_recommendations score0 [recA, recB] (-1)).recommendations ≠ [] ∧
      ((generate_recommendations score0 [recA, recB] (-1)).recommendations).length = 1 := by
  constructor
  · decide
  · decide

/-- C3 (amended): the output length is `min(top_k, n)` for `top_k ≥ 0` — in
particular `top_k = 0` and empty inputs give empty output and no error —
while a negative `top_k` follows pandas `head` semantics and keeps all but
the last `|top_k|` rows. -/
theorem rank_output_length (score : Str → ℚ)
    (internships : List NormalizedInternship) (top_k : Int) :
    (0 ≤ top_k →
        ((generate_recommendations score internships top_k).recommendations).length =
          min top_k.toNat internships.length) ∧
      (top_k < 0 →
          ((generate_recommendations score internships top_k).recommendations).length =
            internships.length - (-top_k).toNat) ∧
      (top_k = 0 →
          (generate_recommendations score internships top_k).recommendations = []) ∧
      (internships = [] →
          (generate_recommendations score internships top_k).recommendations = []) := by
  have hlen : (sortDesc simKey (internships.map (mkRow score))).length =
      internships.length := by
    rw [length_sortDesc, List.length_map]
  refine ⟨?_, ?_, ?_, ?_⟩
  · intro hk
    simp [generate_recommendations, pandasHead, hk, hlen, Nat.min_comm]
  · intro hk
    have hk' : ¬ 0 ≤ top_k := not_le.mpr hk
    simp only [generate_recommendations, pandasHead, if_neg hk', List.length_map,
      List.length_take, hlen]
    exact Nat.min_eq_left (Nat.sub_le _ _)
  · rintro rfl
    simp [generate_recommendations, pandasHead]
  · rintro rfl
    simp [generate_recommendations, pandasHead, sortDesc]

/-- Witness for C3 (amended) at concrete inputs. -/
theorem rank_output_length_witness :
    ((generate_recommendations score0 [recA, recB] 1).recommendations).length =
        min (Int.toNat 1) [recA, recB].length ∧
      (generate_recommendations score0 [recA, recB] 0).recommendations = [] ∧
      ((generate_recommendations score0 [recA, recB] (-1)).recommendations).length =
        [recA, recB].length - (-(-1 : Int)).toNat :=
  ⟨(rank_output_length score0 [recA, recB] 1).1 (by decide),
    (rank_output_length score0 [recA, recB] 0).2.2.1 rfl,
    (rank_output_length score0 [recA, recB] (-1)).2.1 (by decide)⟩

/-- The five field names of a ranking artifact record. -/
def artifactFieldNames : List Str :=
  [("Job Title".toList), ("Company".toList), ("Location".toList),
    ("Similarity Score".toList), ("description".toList)]

/-- Each serialized row carries exactly the renamed field names, in column
order. -/
theorem keys_rowToJson_map :
    ∀ l : List Row,
      (l.map rowToJson).map (fun rec => rec.map Prod.fst) =
        List.replicate l.length artifactFieldNames
  | [] => rfl
  | r :: rs => by
    simp [keys_rowToJson_map rs, rowToJson, artifactFieldNames, List.replicate]

/-- C9: `total_found` counts the records considered before truncation (the
whole input list), and every entry of `recommendations` carries the field
names `Job Title`, `Company`, `Location`, `Similarity Score`,
`description`. -/
theorem rank_artifact_shape (score : Str → ℚ)
    (internships : List NormalizedInternship) (top_k : Int) :
    (generate_recommendations score internships top_k).total_found =
        internships.length ∧
      ((generate_recommendations score internships top_k).recommendations).map
          (fun rec => rec.map Prod.fst) =
        List.replicate
          ((generate_recommendations score internships top_k).recommendations).length
          artifactFieldNames := by
  constructor
  · simp [generate_recommendations, length_sortDesc]
  · simp only [generate_recommendations]
    rw [keys_rowToJson_map, List.length_map]

end JobSearch
